import Mathlib

/-!
Verification of the hex-grid game engine (coordinate geometry, board,
game state) of the socha client, against its natural-language
specification.  The Lean definitions below are a shallow embedding of the
Rust sources:

  * `src/game/coords.rs`      — coordinate types, conversions, line iteration
  * `src/game/field.rs`       — a board cell (piece stack + obstruction flag)
  * `src/game/board.rs`       — the sparse board and its search algorithms
  * `src/game/game_state.rs`  — move validation and move enumeration

Conventions of the embedding:

  * Rust `i32` becomes `Int` (no claim under scrutiny depends on wrap-around,
    every value involved is tiny), `u32` becomes `Nat`.
  * Rust `HashMap<AxialCoords, Field>` becomes an association list
    `List (AxialCoords × Field)`; where a theorem needs the map's key
    uniqueness it carries an explicit `Nodup` hypothesis on the keys.
  * Rust `SCResult<()>` (`Ok`/`Err` with a reason string) becomes `Bool`
    (`true` for `Ok`): the claims only distinguish acceptance from rejection.
  * Rust iterators that may loop forever (the `LineIter` below genuinely can,
    see the C3 theorem) are modelled with an explicit fuel argument; every
    theorem below that evaluates such a function does so on inputs where the
    fuel bound is not reached, so the model agrees with the source there.
-/

namespace Socha

/-- Axial coordinates on the hex grid (`coords.rs`, `AxialCoords`). -/
structure AxialCoords where
  x : Int
  y : Int
deriving DecidableEq

/-- Cube coordinates on the hex grid (`coords.rs`, `CubeCoords`).
The intended invariant is `x + y + z = 0`; `new` does not validate it. -/
structure CubeCoords where
  x : Int
  y : Int
  z : Int
deriving DecidableEq

/-- Doubled offset coordinates (`coords.rs`, `DoubledCoords`). -/
structure DoubledCoords where
  x : Int
  y : Int
deriving DecidableEq

/-- `impl Add for AxialCoords`: componentwise. -/
def AxialCoords.add (a b : AxialCoords) : AxialCoords :=
  ⟨a.x + b.x, a.y + b.y⟩

/-- `impl Add for CubeCoords`, translated verbatim from the source
(`coords.rs` line 280): note that the `z` component is computed as
`self.y + rhs.z`, not `self.z + rhs.z`. -/
def CubeCoords.add (a b : CubeCoords) : CubeCoords :=
  ⟨a.x + b.x, a.y + b.y, a.y + b.z⟩

/-- `impl Sub for CubeCoords`: componentwise. -/
def CubeCoords.sub (a b : CubeCoords) : CubeCoords :=
  ⟨a.x - b.x, a.y - b.y, a.z - b.z⟩

/-- `impl AddAssign for CubeCoords`: componentwise (unlike `add` above). -/
def CubeCoords.add_assign (a b : CubeCoords) : CubeCoords :=
  ⟨a.x + b.x, a.y + b.y, a.z + b.z⟩

/-- `impl Mul<R> for CubeCoords`: componentwise scalar multiplication. -/
def CubeCoords.mul (a : CubeCoords) (r : Int) : CubeCoords :=
  ⟨a.x * r, a.y * r, a.z * r⟩

/-- `impl Div<R> for CubeCoords`: componentwise truncating division. -/
def CubeCoords.div (a : CubeCoords) (r : Int) : CubeCoords :=
  ⟨Int.tdiv a.x r, Int.tdiv a.y r, Int.tdiv a.z r⟩

/-- `impl MulAssign<R> for CubeCoords`, translated verbatim from the source
(`coords.rs` lines 323-330): `x` and `y` are multiplied by `r` but the last
line reads `self.z += r`. -/
def CubeCoords.mul_assign (a : CubeCoords) (r : Int) : CubeCoords :=
  ⟨a.x * r, a.y * r, a.z + r⟩

/-- `From<AxialCoords> for CubeCoords`: `z = -(x + y)`. -/
def CubeCoords.fromAxial (a : AxialCoords) : CubeCoords :=
  ⟨a.x, a.y, -(a.x + a.y)⟩

/-- `From<CubeCoords> for AxialCoords`: drop `z`. -/
def AxialCoords.fromCube (c : CubeCoords) : AxialCoords :=
  ⟨c.x, c.y⟩

/-- `From<AxialCoords> for DoubledCoords`. -/
def DoubledCoords.fromAxial (a : AxialCoords) : DoubledCoords :=
  ⟨a.x - a.y, -(a.x + a.y)⟩

/-- `From<DoubledCoords> for AxialCoords`: Rust `/` on `i32` truncates
toward zero, which is `Int.tdiv`. -/
def AxialCoords.fromDoubled (d : DoubledCoords) : AxialCoords :=
  ⟨Int.tdiv (d.x - d.y) 2, Int.tdiv (-(d.x + d.y)) 2⟩

/-- `AxialCoords::coord_neighbors`: the six neighbor offsets, in source
order, regardless of any board boundary. -/
def coord_neighbors (a : AxialCoords) : List AxialCoords :=
  [ a.add ⟨0, 1⟩, a.add ⟨1, 0⟩, a.add ⟨1, -1⟩,
    a.add ⟨0, -1⟩, a.add ⟨-1, 0⟩, a.add ⟨-1, 1⟩ ]

/-- `Adjacentable::is_adjacent_to` for axial coordinates. -/
def is_adjacent_to (a b : AxialCoords) : Bool :=
  (coord_neighbors a).any (fun c => c == b)

/-- `LineFormable::forms_line_with` (via conversion to cube coordinates):
two cells form a line iff they share an `x`, `y` or `z` component. -/
def forms_line_with (a b : AxialCoords) : Bool :=
  let lc := CubeCoords.fromAxial a
  let rc := CubeCoords.fromAxial b
  lc.x == rc.x || lc.y == rc.y || lc.z == rc.z

/-- The state of a `LineIter` (`coords.rs`). -/
structure LineIter where
  current : CubeCoords
  destination : CubeCoords
  step : CubeCoords
deriving DecidableEq

/-- `LineFormable::line_iter`: the step is the componentwise sign of the
difference, and the initial `current` is `lhs_cube + step` computed with the
source's `Add` instance (`CubeCoords.add` above). -/
def line_iter (lhs rhs : CubeCoords) : LineIter :=
  let diff := rhs.sub lhs
  let step : CubeCoords := ⟨diff.x.sign, diff.y.sign, diff.z.sign⟩
  ⟨lhs.add step, rhs, step⟩

/-- The `current` value of a `LineIter` after `n` calls of `next` that
returned `Some`: each `next` advances with `+=`, i.e. `CubeCoords.add_assign`. -/
def LineIter.nthCurrent (it : LineIter) : Nat → CubeCoords
  | 0 => it.current
  | n + 1 => (it.nthCurrent n).add_assign it.step

/-- The list of coordinates yielded by a `LineIter`, cut off by `fuel`:
`next` yields `current` and advances while `current ≠ destination`.  The Rust
iterator has no cut-off and need not terminate (see the C3 theorem); every
evaluation below stays within the fuel. -/
def LineIter.toList : Nat → LineIter → List CubeCoords
  | 0, _ => []
  | fuel + 1, it =>
    if it.current == it.destination then []
    else it.current :: LineIter.toList fuel ⟨it.current.add_assign it.step, it.destination, it.step⟩

/-- Fuel that bounds any terminating run of a `LineIter` built by
`line_iter lhs rhs`: a terminating run takes at most `max |Δx| |Δy| |Δz|`
steps, which the sum of the absolute differences dominates. -/
def line_fuel (lhs rhs : CubeCoords) : Nat :=
  (rhs.sub lhs).x.natAbs + (rhs.sub lhs).y.natAbs + (rhs.sub lhs).z.natAbs + 1

/-- Definition following the spec's words, for comparison with `line_iter`
(*"`line_iter` yields the open interval of cube cells strictly between two
endpoints, stepping by the unit vector of componentwise sign differences"*):
the cells strictly between `lhs` and `rhs`, in step order, destination
excluded.  The k-th cell is `lhs + (k+1) * step` with ordinary componentwise
addition. -/
def spec_line_between (lhs rhs : CubeCoords) : List CubeCoords :=
  let diff := rhs.sub lhs
  let step : CubeCoords := ⟨diff.x.sign, diff.y.sign, diff.z.sign⟩
  let dist := max diff.x.natAbs (max diff.y.natAbs diff.z.natAbs)
  (List.range (dist - 1)).map
    (fun k => ⟨lhs.x + (k + 1) * step.x, lhs.y + (k + 1) * step.y, lhs.z + (k + 1) * step.z⟩)

/-- `PlayerColor` (`player_color.rs`): exactly two values. -/
inductive PlayerColor where
  | red
  | blue
deriving DecidableEq

/-- `PlayerColor::opponent`. -/
def PlayerColor.opponent : PlayerColor → PlayerColor
  | .red => .blue
  | .blue => .red

/-- `PieceType` (`piece_type.rs`): a closed set of five variants. -/
inductive PieceType where
  | ant
  | bee
  | beetle
  | grasshopper
  | spider
deriving DecidableEq

/-- `Piece` (`piece.rs`): owner and piece type. -/
structure Piece where
  owner : PlayerColor
  piece_type : PieceType
deriving DecidableEq

/-- `Field` (`field.rs`): an ordered stack of pieces (top of stack = last
element, matching Rust `Vec` push/pop) plus an obstruction flag. -/
structure Field where
  piece_stack : List Piece
  is_obstructed : Bool
deriving DecidableEq

/-- `Field::piece`: the top-most piece. -/
def Field.piece (f : Field) : Option Piece :=
  f.piece_stack.getLast?

/-- `Field::owner`: the color of the top-most piece. -/
def Field.owner (f : Field) : Option PlayerColor :=
  f.piece.map Piece.owner

/-- `Field::is_owned_by`. -/
def Field.is_owned_by (f : Field) (color : PlayerColor) : Bool :=
  f.owner == some color

/-- `Field::has_pieces`. -/
def Field.has_pieces (f : Field) : Bool :=
  !f.piece_stack.isEmpty

/-- `Field::is_occupied`: obstructed or holding pieces. -/
def Field.is_occupied (f : Field) : Bool :=
  f.is_obstructed || f.has_pieces

/-- `Field::is_empty`. -/
def Field.is_empty (f : Field) : Bool :=
  !f.is_occupied

/-- `Field::pop`, keeping only the resulting field (the popped piece is
discarded by the one caller we model, `validate_drag_move`). -/
def Field.pop (f : Field) : Field :=
  ⟨f.piece_stack.dropLast, f.is_obstructed⟩

/-- `Board` (`board.rs`): the Rust `HashMap<AxialCoords, Field>` as an
association list; coordinates absent from the list do not exist on the
board.  The map's key uniqueness is carried as a `Nodup` hypothesis where a
theorem needs it. -/
structure Board where
  fields : List (AxialCoords × Field)
deriving DecidableEq

/-- `Board::field`: lookup by coordinate. -/
def Board.field (b : Board) (c : AxialCoords) : Option Field :=
  (b.fields.find? (fun p => p.1 == c)).map Prod.snd

/-- `Board::contains_coords`. -/
def Board.contains_coords (b : Board) (c : AxialCoords) : Bool :=
  (b.field c).isSome

/-- `Board::is_occupied`: an absent coordinate counts as occupied. -/
def Board.is_occupied (b : Board) (c : AxialCoords) : Bool :=
  ((b.field c).map Field.is_occupied).getD true

/-- `Board::has_pieces`: some field holds a piece. -/
def Board.has_pieces (b : Board) : Bool :=
  b.fields.any (fun p => p.2.has_pieces)

/-- `Board::fields_owned_by`. -/
def Board.fields_owned_by (b : Board) (color : PlayerColor) : List (AxialCoords × Field) :=
  b.fields.filter (fun p => p.2.is_owned_by color)

/-- `Board::empty_fields`. -/
def Board.empty_fields (b : Board) : List (AxialCoords × Field) :=
  b.fields.filter (fun p => p.2.is_empty)

/-- `Board::neighbors`: the existing neighbor fields, in `coord_neighbors`
order; off-board neighbors are dropped. -/
def Board.neighbors (b : Board) (c : AxialCoords) : List (AxialCoords × Field) :=
  (coord_neighbors c).filterMap (fun n => (b.field n).map (fun f => (n, f)))

/-- The coordinates of the existing neighbor fields. -/
def Board.neighbor_coords (b : Board) (c : AxialCoords) : List AxialCoords :=
  (b.neighbors c).map Prod.fst

/-- `Board::empty_neighbors`. -/
def Board.empty_neighbors (b : Board) (c : AxialCoords) : List (AxialCoords × Field) :=
  (b.neighbors c).filter (fun p => p.2.is_empty)

/-- `Board::swarm_boundary`: empty neighbors of occupied fields. -/
def Board.swarm_boundary (b : Board) : List (AxialCoords × Field) :=
  (b.fields.filter (fun p => p.2.is_occupied)).flatMap (fun p => b.empty_neighbors p.1)

/-- `Board::has_placed_bee`: some stack anywhere contains this color's Bee. -/
def Board.has_placed_bee (b : Board) (color : PlayerColor) : Bool :=
  b.fields.any (fun p => p.2.piece_stack.any (fun pc => pc == ⟨color, .bee⟩))

/-- `Board::is_next_to`: some existing neighbor is owned by `color`. -/
def Board.is_next_to (b : Board) (color : PlayerColor) (c : AxialCoords) : Bool :=
  (b.neighbors c).any (fun p => p.2.is_owned_by color)

/-- Whether the field at `c` (if any) holds a piece. -/
def Board.has_pieces_at (b : Board) (c : AxialCoords) : Bool :=
  ((b.field c).map Field.has_pieces).getD false

/-- The effect of `field_mut(c)` followed by `Field::pop` on a board value
(used in `validate_drag_move` on a one-off copy of the board). -/
def Board.pop_field (b : Board) (c : AxialCoords) : Board :=
  ⟨b.fields.map (fun p => if p.1 == c then (p.1, p.2.pop) else p)⟩

/-- First-occurrence deduplication, the behavior of itertools' `unique()`. -/
def unique_first [DecidableEq α] : List α → List α :=
  go []
where
  go [DecidableEq α] (seen : List α) : List α → List α
    | [] => []
    | x :: xs => if x ∈ seen then go seen xs else x :: go (x :: seen) xs

/-- `Board::possible_set_move_destinations`: empty neighbors of own fields,
first-occurrence deduplicated, minus cells next to the opponent. -/
def Board.possible_set_move_destinations (b : Board) (color : PlayerColor) : List AxialCoords :=
  let opponent := color.opponent
  (unique_first ((b.fields_owned_by color).flatMap (fun p => b.empty_neighbors p.1))).filterMap
    (fun p => if b.is_next_to opponent p.1 then none else some p.1)

/-- `Board::shared_neighbors`: the intersection of the two neighbor lists
(as (coordinate, field) pairs), keeping a pair whose field holds exactly one
piece only when it is the exception coordinate. -/
def Board.shared_neighbors (b : Board) (a c : AxialCoords) (exception : Option AxialCoords) :
    List (AxialCoords × Field) :=
  ((b.neighbors a).filter (fun p => decide (p ∈ b.neighbors c))).filter
    (fun p => p.2.piece_stack.length != 1 || exception == some p.1)

/-- `Board::can_move_between_except`: the hex sliding rule. -/
def Board.can_move_between_except (b : Board) (exception : Option AxialCoords)
    (a c : AxialCoords) : Bool :=
  let shared := b.shared_neighbors a c exception
  (shared.length == 1 || shared.any (fun p => p.2.is_empty)) &&
    shared.any (fun p => p.2.has_pieces)

/-- `Board::can_move_between`. -/
def Board.can_move_between (b : Board) (a c : AxialCoords) : Bool :=
  b.can_move_between_except none a c

/-- `Board::accessible_neighbors_except`: empty neighbors that are
slide-reachable from `c`. -/
def Board.accessible_neighbors_except (b : Board) (exception : Option AxialCoords)
    (c : AxialCoords) : List (AxialCoords × Field) :=
  (b.neighbors c).filter (fun p => p.2.is_empty && b.can_move_between_except exception c p.1)

/-- The loop of `Board::bfs_accessible`: pop the queue front, mark it
visited, return `true` when the search condition holds there, otherwise
enqueue the unvisited accessible neighbors.  `fuel` bounds the number of
loop iterations; `bfs_accessible` below supplies fuel that no run can
exhaust. -/
def Board.bfs_accessible_aux (b : Board) (start : AxialCoords)
    (cond : AxialCoords → Field → Bool) :
    Nat → List AxialCoords → List AxialCoords → Bool
  | 0, _, _ => false
  | _ + 1, [], _ => false
  | fuel + 1, coords :: rest, visited =>
    let visited' := coords :: visited
    match b.field coords with
    | none => b.bfs_accessible_aux start cond fuel rest visited'
    | some field =>
      if cond coords field then true
      else
        b.bfs_accessible_aux start cond fuel
          (rest ++ (b.accessible_neighbors_except (some start) coords).filterMap
            (fun p => if p.1 ∈ visited' then none else some p.1))
          visited'

/-- `Board::bfs_accessible`.  Each loop iteration consumes one queue entry;
entries are the start plus, per visited cell, at most six neighbors, so
`6 * |fields| + 1` iterations always suffice (enqueued coordinates exist on
the board, and each existing cell is dequeued-unvisited at most once per
enqueue, of which there are at most six per cell). -/
def Board.bfs_accessible (b : Board) (start : AxialCoords)
    (cond : AxialCoords → Field → Bool) : Bool :=
  b.bfs_accessible_aux start cond (6 * b.fields.length + 1) [start] []

/-- `Board::connected_by_boundary_path`. -/
def Board.connected_by_boundary_path (b : Board) (start destination : AxialCoords) : Bool :=
  b.bfs_accessible start (fun c _ => c == destination)

/-- The loop of `Board::bfs_reachable_in_3_steps`.  A path is kept most
recent first (`head` is Rust's `path.last()`); the queue only ever holds
paths of length 1 to 3, so at most `1 + 6 + 36 = 43` paths are processed and
the fuel of 43 supplied below cannot run out. -/
def Board.bfs3_aux (b : Board) (start destination : AxialCoords) :
    Nat → List (List AxialCoords) → Bool
  | 0, _ => false
  | _ + 1, [] => false
  | fuel + 1, path :: queue =>
    let current := path.headD start
    let nbrs := (b.accessible_neighbors_except (some start) current).filter
      (fun p => !path.contains p.1)
    if path.length < 3 then
      b.bfs3_aux start destination fuel (queue ++ nbrs.map (fun p => p.1 :: path))
    else if nbrs.any (fun p => p.1 == destination) then true
    else b.bfs3_aux start destination fuel queue

/-- `Board::bfs_reachable_in_3_steps`. -/
def Board.bfs_reachable_in_3_steps (b : Board) (start destination : AxialCoords) : Bool :=
  b.bfs3_aux start destination 43 [[start]]

/-- `Board::dfs_swarm`: if the field at `coords` holds pieces, remove
`coords` from the unvisited set and recurse into each still-unvisited
existing neighbor.  `fuel` bounds the recursion depth; since every recursive
call happens on a strictly smaller unvisited set, `|unvisited|` levels
always suffice and `is_swarm_connected` supplies more. -/
def Board.dfs_swarm (b : Board) : Nat → AxialCoords → List AxialCoords → List AxialCoords
  | 0, _, unvisited => unvisited
  | fuel + 1, coords, unvisited =>
    if b.has_pieces_at coords then
      (b.neighbor_coords coords).foldl
        (fun u n => if n ∈ u then b.dfs_swarm fuel n u else u)
        (unvisited.erase coords)
    else unvisited

/-- The fold inside `dfs_swarm`, as its own definition for the proofs. -/
def Board.dfs_fold (b : Board) (fuel : Nat) (ns : List AxialCoords)
    (u : List AxialCoords) : List AxialCoords :=
  ns.foldl (fun u' n => if n ∈ u' then b.dfs_swarm fuel n u' else u') u

/-- The coordinates of the fields holding pieces: the initial unvisited set
of `Board::is_swarm_connected`. -/
def Board.piece_cells (b : Board) : List AxialCoords :=
  (b.fields.filter (fun p => p.2.has_pieces)).map Prod.fst

/-- `Board::is_swarm_connected`: depth-first traversal from one cell with
pieces; connected iff it empties the unvisited set.  An empty swarm is
connected. -/
def Board.is_swarm_connected (b : Board) : Bool :=
  match b.piece_cells with
  | [] => true
  | start :: _ => (b.dfs_swarm (b.fields.length + 1) start b.piece_cells).isEmpty

/-- `PositionedField` (`positioned_field.rs`): a field together with its
coordinates, as carried inside a `Move`. -/
structure PositionedField where
  coords : AxialCoords
  field : Field
deriving DecidableEq

/-- `Move` (`move.rs`): a SetMove places an undeployed piece, a DragMove
relocates a placed one. -/
inductive Move where
  | set_move (piece : Piece) (destination : PositionedField)
  | drag_move (start destination : PositionedField)
deriving DecidableEq

/-- `INITIAL_PIECE_TYPES` (`constants.rs`): the eleven piece types of one
side's initial pool, in source order. -/
def INITIAL_PIECE_TYPES : List PieceType :=
  [.bee, .spider, .spider, .spider, .grasshopper, .grasshopper,
   .beetle, .beetle, .ant, .ant, .ant]

/-- `GameState` (`game_state.rs`).  The two `Player` records (display names)
play no role in validation or enumeration and are omitted. -/
structure GameState where
  turn : Nat
  start_player_color : PlayerColor
  current_player_color : PlayerColor
  board : Board
  undeployed_red_pieces : List Piece
  undeployed_blue_pieces : List Piece
deriving DecidableEq

/-- `GameState::undeployed_pieces`. -/
def GameState.undeployed_pieces (g : GameState) : PlayerColor → List Piece
  | .red => g.undeployed_red_pieces
  | .blue => g.undeployed_blue_pieces

/-- `GameState::round`: half the turn. -/
def GameState.round (g : GameState) : Nat :=
  g.turn / 2

/-- `GameState::validate_adjacent` (Ok ↦ `true`). -/
def GameState.validate_adjacent (_g : GameState) (start destination : AxialCoords) : Bool :=
  is_adjacent_to start destination

/-- `GameState::validate_ant_move`. -/
def GameState.validate_ant_move (g : GameState) (start destination : AxialCoords) : Bool :=
  g.board.connected_by_boundary_path start destination

/-- `GameState::validate_bee_move`. -/
def GameState.validate_bee_move (g : GameState) (start destination : AxialCoords) : Bool :=
  g.validate_adjacent start destination && g.board.can_move_between start destination

/-- `GameState::validate_beetle_move`. -/
def GameState.validate_beetle_move (g : GameState) (start destination : AxialCoords) : Bool :=
  g.validate_adjacent start destination &&
    ((g.board.shared_neighbors start destination none).any (fun p => p.2.has_pieces) ||
      ((g.board.field destination).map Field.has_pieces).getD false)

/-- `GameState::validate_grasshopper_move`: reject when the two cells form
no line, when they are adjacent, and when some cell yielded by `line_iter`
exists on the board and is empty. -/
def GameState.validate_grasshopper_move (g : GameState) (start destination : AxialCoords) : Bool :=
  if !forms_line_with start destination then false
  else if is_adjacent_to start destination then false
  else
    let lhs := CubeCoords.fromAxial start
    let rhs := CubeCoords.fromAxial destination
    if (LineIter.toList (line_fuel lhs rhs) (line_iter lhs rhs)).any
        (fun c => ((g.board.field (AxialCoords.fromCube c)).map Field.is_empty).getD false)
    then false
    else true

/-- `GameState::validate_spider_move`. -/
def GameState.validate_spider_move (g : GameState) (start destination : AxialCoords) : Bool :=
  g.board.bfs_reachable_in_3_steps start destination

/-- `GameState::validate_set_move`, with the source's branch chain kept
branch for branch (Ok ↦ `true`, every Err ↦ `false`).  The last two
branches are the source's lines 97-100: both test adjacency to a field
owned by `color` itself. -/
def GameState.validate_set_move (g : GameState) (color : PlayerColor) (piece : Piece)
    (destination : AxialCoords) : Bool :=
  if !g.board.contains_coords destination then false
  else if ((g.board.field destination).map Field.is_obstructed).getD true then false
  else if !g.board.has_pieces then true
  else if (g.board.fields_owned_by color).length == 0 then
    g.board.is_next_to color.opponent destination
  else if g.round == 3 && !g.board.has_placed_bee color && piece.piece_type != .bee then false
  else if !(g.undeployed_pieces color).contains piece then false
  else if !(g.board.neighbors destination).any (fun p => p.2.is_owned_by color) then false
  else if (g.board.neighbors destination).any (fun p => p.2.is_owned_by color) then false
  else true

/-- `GameState::validate_drag_move` (Ok ↦ `true`). -/
def GameState.validate_drag_move (g : GameState) (color : PlayerColor)
    (start destination : AxialCoords) : Bool :=
  if !g.board.has_placed_bee color then false
  else if !g.board.contains_coords start then false
  else if !g.board.contains_coords destination then false
  else
    match (g.board.field start).bind Field.piece with
    | none => false
    | some dragged_piece =>
      if dragged_piece.owner != color then false
      else if start == destination then false
      else if (((g.board.field destination).bind Field.piece).map
          (fun p => p.piece_type == PieceType.beetle)).getD false then false
      else if !(g.board.pop_field start).is_swarm_connected then false
      else
        match dragged_piece.piece_type with
        | .ant => g.validate_ant_move start destination
        | .bee => g.validate_bee_move start destination
        | .beetle => g.validate_beetle_move start destination
        | .grasshopper => g.validate_grasshopper_move start destination
        | .spider => g.validate_spider_move start destination

/-- `GameState::validate_move`. -/
def GameState.validate_move (g : GameState) (color : PlayerColor) : Move → Bool
  | .set_move piece destination => g.validate_set_move color piece destination.coords
  | .drag_move start destination => g.validate_drag_move color start.coords destination.coords

/-- `GameState::possible_set_moves`. -/
def GameState.possible_set_moves (g : GameState) (color : PlayerColor) : List Move :=
  let undeployed := g.undeployed_pieces color
  let opponent := color.opponent
  let destination_coords : List AxialCoords :=
    if undeployed.length == INITIAL_PIECE_TYPES.length then
      if (g.undeployed_pieces opponent).length == INITIAL_PIECE_TYPES.length then
        g.board.empty_fields.map Prod.fst
      else
        (g.board.fields_owned_by opponent).flatMap
          (fun p => (g.board.empty_neighbors p.1).map Prod.fst)
    else
      g.board.possible_set_move_destinations color
  let destinations := destination_coords.filterMap
    (fun c => (g.board.field c).map (fun f => PositionedField.mk c f))
  if !g.board.has_placed_bee color && g.turn > 5 then
    destinations.map (fun d => Move.set_move ⟨color, .bee⟩ d)
  else
    destinations.flatMap (fun d => undeployed.map (fun p => Move.set_move p d))

/-- `GameState::possible_drag_moves`: swarm-boundary targets, plus all
neighbor cells when the start field's top piece is a Beetle, each kept only
when full validation accepts it. -/
def GameState.possible_drag_moves (g : GameState) (color : PlayerColor) : List Move :=
  (g.board.fields_owned_by color).flatMap (fun sp =>
    let targets := g.board.swarm_boundary ++
      (if ((sp.2.piece.map (fun p => p.piece_type == PieceType.beetle)).getD false) then
        g.board.neighbors sp.1
      else [])
    targets.filterMap (fun tp =>
      let m := Move.drag_move ⟨sp.1, sp.2⟩ ⟨tp.1, tp.2⟩
      if g.validate_move color m then some m else none))

/-- `GameState::possible_moves`: set moves then drag moves. -/
def GameState.possible_moves (g : GameState) (color : PlayerColor) : List Move :=
  g.possible_set_moves color ++ g.possible_drag_moves color

/-! ### Concrete states used by the claim theorems -/

/-- A color's initial pool: the eleven pieces of `INITIAL_PIECE_TYPES`. -/
def initial_pieces (c : PlayerColor) : List Piece :=
  INITIAL_PIECE_TYPES.map (fun t => ⟨c, t⟩)

/-- Midgame state for C1: Red owns `(0,0)` (an Ant), `(0,1)` is an existing
empty cell adjacent to it and to no Blue cell, and Red's Bee is undeployed. -/
def gC1 : GameState :=
  { turn := 2, start_player_color := .red, current_player_color := .red,
    board := ⟨[(⟨0, 0⟩, ⟨[⟨.red, .ant⟩], false⟩), (⟨0, 1⟩, ⟨[], false⟩)]⟩,
    undeployed_red_pieces := [⟨.red, .bee⟩], undeployed_blue_pieces := [] }

/-- State for C4: a Red Grasshopper at `(0,0)`, occupied cells at `(1,0)`
and `(2,0)` (the latter topped by a Blue Ant), Red's Bee at `(0,1)`. -/
def g4 : GameState :=
  { turn := 6, start_player_color := .red, current_player_color := .red,
    board := ⟨[(⟨0, 0⟩, ⟨[⟨.red, .grasshopper⟩], false⟩),
               (⟨1, 0⟩, ⟨[⟨.blue, .grasshopper⟩], false⟩),
               (⟨2, 0⟩, ⟨[⟨.blue, .ant⟩], false⟩),
               (⟨0, 1⟩, ⟨[⟨.red, .bee⟩], false⟩)]⟩,
    undeployed_red_pieces := [], undeployed_blue_pieces := [] }

/-- State for C5: a Grasshopper at `(1,0)`, an occupied cell at `(2,0)` and
an existing empty destination at `(3,0)`. -/
def g5 : GameState :=
  { turn := 6, start_player_color := .red, current_player_color := .red,
    board := ⟨[(⟨1, 0⟩, ⟨[⟨.red, .grasshopper⟩], false⟩),
               (⟨2, 0⟩, ⟨[⟨.blue, .ant⟩], false⟩),
               (⟨3, 0⟩, ⟨[], false⟩)]⟩,
    undeployed_red_pieces := [], undeployed_blue_pieces := [] }

/-- First-turn state for C6: one empty cell, both pools full. -/
def g6 : GameState :=
  { turn := 0, start_player_color := .red, current_player_color := .red,
    board := ⟨[(⟨0, 0⟩, ⟨[], false⟩)]⟩,
    undeployed_red_pieces := initial_pieces .red,
    undeployed_blue_pieces := initial_pieces .blue }

/-- State for C7's witness: popping the Ant at `(1,0)` splits the swarm
into `(0,0)` and `(2,0)`. -/
def g7 : GameState :=
  { turn := 6, start_player_color := .red, current_player_color := .red,
    board := ⟨[(⟨0, 0⟩, ⟨[⟨.red, .bee⟩], false⟩),
               (⟨1, 0⟩, ⟨[⟨.red, .ant⟩], false⟩),
               (⟨2, 0⟩, ⟨[⟨.blue, .bee⟩], false⟩),
               (⟨3, 0⟩, ⟨[], false⟩)]⟩,
    undeployed_red_pieces := [], undeployed_blue_pieces := [] }

/-- Board for C8's counterexample: one cell with a piece at `(0,0)` and one
obstructed, piece-less (hence occupied) cell at `(2,0)`. -/
def b8 : Board :=
  ⟨[(⟨0, 0⟩, ⟨[⟨.red, .bee⟩], false⟩), (⟨2, 0⟩, ⟨[], true⟩)]⟩

/-- One-cell board for C10's witness. -/
def b10 : Board :=
  ⟨[(⟨0, 0⟩, ⟨[], false⟩)]⟩

/-- One step of the swarm traversal: `v` is an existing neighbor of `u` and
holds a piece (the DFS follows edges between cells that both `has_pieces()`). -/
def PieceAdj (b : Board) (u v : AxialCoords) : Prop :=
  v ∈ b.neighbor_coords u ∧ b.has_pieces_at v = true

/-- Reachability along piece-holding cells: the reflexive-transitive
closure of `PieceAdj`. -/
def PieceReach (b : Board) : AxialCoords → AxialCoords → Prop :=
  Relation.ReflTransGen (PieceAdj b)

/-- One step between *occupied* cells (in the `Field::is_occupied` sense,
which also counts obstructed piece-less fields), for stating C8 as written. -/
def OccAdj (b : Board) (u v : AxialCoords) : Prop :=
  v ∈ b.neighbor_coords u ∧ b.is_occupied v = true

/-- A path of occupied cells: the reflexive-transitive closure of `OccAdj`. -/
def OccReach (b : Board) : AxialCoords → AxialCoords → Prop :=
  Relation.ReflTransGen (OccAdj b)

/-! ### Claim theorems: coordinate layer (C2, C3, C9) -/

/-- Claim C2: `Add` and `MulAssign` on `CubeCoords` are *not* componentwise,
contrary to the claim.  `(0,1,-1) + (0,0,0)` evaluates to `(0,1,1)` (the `z`
component is `self.y + rhs.z`), whose components sum to `2`, so adding two
invariant-satisfying coordinates leaves the invariant; and `(1,1,-2) *= 3`
evaluates to `(3,3,1)` (`z` gets `+= r`), not `(3,3,-6)`. -/
theorem c2_cube_add_and_mul_assign_slips :
    CubeCoords.add ⟨0, 1, -1⟩ ⟨0, 0, 0⟩ = ⟨0, 1, 1⟩ ∧
    (0 : Int) + 1 + (-1) = 0 ∧
    (CubeCoords.add ⟨0, 1, -1⟩ ⟨0, 0, 0⟩).x + (CubeCoords.add ⟨0, 1, -1⟩ ⟨0, 0, 0⟩).y +
      (CubeCoords.add ⟨0, 1, -1⟩ ⟨0, 0, 0⟩).z = 2 ∧
    CubeCoords.mul_assign ⟨1, 1, -2⟩ 3 = ⟨3, 3, 1⟩ ∧
    CubeCoords.sub ⟨4, -1, -3⟩ ⟨1, 1, -2⟩ = ⟨3, -2, -1⟩ := by
  decide

/-- Closed form of the iterator state for C3's input: starting from the
(mis-computed) first element `(1,1,-1)`, the `n`-th current value is
`(1, 1+n, -1-n)`. -/
theorem c3_nth_current_closed_form (n : Nat) :
    (line_iter ⟨1, 0, -1⟩ ⟨1, 2, -3⟩).nthCurrent n = ⟨1, 1 + n, -1 - n⟩ := by
  induction n with
  | zero => decide
  | succ n ih =>
    show ((line_iter ⟨1, 0, -1⟩ ⟨1, 2, -3⟩).nthCurrent n).add_assign _ = _
    rw [ih]
    show CubeCoords.add_assign _ ⟨0, 1, -1⟩ = _
    simp only [CubeCoords.add_assign, CubeCoords.mk.injEq]
    refine ⟨by omega, by push_cast; ring, by push_cast; ring⟩

/-- Claim C3: for the valid, distinct, line-forming cube pair
`(1,0,-1)`, `(1,2,-3)` (they share `x`), the iterator built by `line_iter`
*never* reaches its destination: its first element is computed with the
mis-computed `Add` (`z = self.y + rhs.z`), after which `current` advances
componentwise and no `n`-th state equals the destination — the Rust
iterator therefore never returns `None` and the loop does not terminate. -/
theorem c3_line_iter_never_reaches_destination :
    (⟨1, 0, -1⟩ : CubeCoords).x + (⟨1, 0, -1⟩ : CubeCoords).y + (⟨1, 0, -1⟩ : CubeCoords).z = 0 ∧
    (⟨1, 2, -3⟩ : CubeCoords).x + (⟨1, 2, -3⟩ : CubeCoords).y + (⟨1, 2, -3⟩ : CubeCoords).z = 0 ∧
    (⟨1, 0, -1⟩ : CubeCoords).x = (⟨1, 2, -3⟩ : CubeCoords).x ∧
    decide ((⟨1, 0, -1⟩ : CubeCoords) = ⟨1, 2, -3⟩) = false ∧
    (line_iter ⟨1, 0, -1⟩ ⟨1, 2, -3⟩).nthCurrent 0 = ⟨1, 1, -1⟩ ∧
    ∀ n : Nat, decide ((line_iter ⟨1, 0, -1⟩ ⟨1, 2, -3⟩).nthCurrent n = ⟨1, 2, -3⟩) = false := by
  refine ⟨by decide, by decide, by decide, by decide, by decide, fun n => ?_⟩
  rw [c3_nth_current_closed_form]
  apply decide_eq_false
  intro h
  rw [CubeCoords.mk.injEq] at h
  omega

/-- Claim C9: converting axial → doubled → axial is the identity, and
doubled → axial → doubled is the identity on coordinates satisfying the
parity invariant (`x + y` even). -/
theorem c9_axial_doubled_round_trip :
    (∀ a : AxialCoords, AxialCoords.fromDoubled (DoubledCoords.fromAxial a) = a) ∧
    (∀ d : DoubledCoords, (d.x + d.y) % 2 = 0 →
      DoubledCoords.fromAxial (AxialCoords.fromDoubled d) = d) := by
  constructor
  · intro a
    obtain ⟨x, y⟩ := a
    simp only [DoubledCoords.fromAxial, AxialCoords.fromDoubled, AxialCoords.mk.injEq]
    constructor
    · rw [show x - y - -(x + y) = 2 * x by ring]
      exact Int.mul_tdiv_cancel_left x (by norm_num)
    · rw [show -(x - y + -(x + y)) = 2 * y by ring]
      exact Int.mul_tdiv_cancel_left y (by norm_num)
  · intro d hd
    obtain ⟨x, y⟩ := d
    change (x + y) % 2 = 0 at hd
    obtain ⟨m, hm⟩ := Int.dvd_of_emod_eq_zero hd
    simp only [AxialCoords.fromDoubled, DoubledCoords.fromAxial, DoubledCoords.mk.injEq]
    rw [show x - y = 2 * (x - m) by omega, show -(x + y) = 2 * -m by omega,
      Int.mul_tdiv_cancel_left _ (by norm_num), Int.mul_tdiv_cancel_left _ (by norm_num)]
    constructor <;> omega

/-- Witness for C9: the parity-respecting round trip at `d = (3,1)`. -/
theorem c9_round_trip_witness :
    DoubledCoords.fromAxial (AxialCoords.fromDoubled ⟨3, 1⟩) = ⟨3, 1⟩ :=
  c9_axial_doubled_round_trip.2 ⟨3, 1⟩ (by decide)

/-! ### Claim theorems: validation evaluations (C1, C4, C5) -/

/-- Claim C1 (evaluation at the failing input): in `gC1` the board has
pieces, Red owns a cell, the round-3 Bee rule does not fire (round is 1),
the Red Bee is in Red's pool, the destination `(0,1)` exists, is
unobstructed, is adjacent to a Red cell and adjacent to no Blue cell — yet
`validate_set_move` rejects, because its last branch re-tests adjacency to
the mover's own color and rejects whenever it holds. -/
theorem c1_set_move_rejects_intended_placement :
    gC1.board.contains_coords ⟨0, 1⟩ = true ∧
    ((gC1.board.field ⟨0, 1⟩).map Field.is_obstructed).getD true = false ∧
    gC1.board.has_pieces = true ∧
    (gC1.board.fields_owned_by .red).length = 1 ∧
    gC1.round = 1 ∧
    Piece.mk .red .bee ∈ gC1.undeployed_pieces .red ∧
    gC1.board.is_next_to .red ⟨0, 1⟩ = true ∧
    gC1.board.is_next_to .blue ⟨0, 1⟩ = false ∧
    gC1.validate_set_move .red ⟨.red, .bee⟩ ⟨0, 1⟩ = false := by
  decide

/-- Claim C4 (evaluation at the failing input): in `g4` a Grasshopper — not
a Beetle — drags from `(0,0)` onto the occupied cell `(2,0)` (topped by an
Ant) and `validate_move` *accepts*: the guard rejects only destinations
whose top piece is a Beetle, not occupied destinations for non-Beetle
movers. -/
theorem c4_grasshopper_lands_on_occupied_cell :
    ((g4.board.field ⟨0, 0⟩).bind Field.piece) = some ⟨.red, .grasshopper⟩ ∧
    g4.board.has_pieces_at ⟨2, 0⟩ = true ∧
    g4.validate_move .red
      (.drag_move ⟨⟨0, 0⟩, ⟨[⟨.red, .grasshopper⟩], false⟩⟩
        ⟨⟨2, 0⟩, ⟨[⟨.blue, .ant⟩], false⟩⟩) = true := by
  decide

/-- Claim C5 (evaluation at the failing input): in `g5` the cells `(1,0)`
and `(3,0)` are collinear and not adjacent, the only cell strictly between
them (`(2,0)`, cube `(2,0,-2)`) is occupied and the destination exists —
the claim says the Grasshopper validation succeeds, but it rejects: the
iterator's mis-shifted first element makes the scanned line pass through
the empty destination cell `(3,0)` itself. -/
theorem c5_grasshopper_jump_rejected :
    forms_line_with ⟨1, 0⟩ ⟨3, 0⟩ = true ∧
    is_adjacent_to ⟨1, 0⟩ ⟨3, 0⟩ = false ∧
    spec_line_between (CubeCoords.fromAxial ⟨1, 0⟩) (CubeCoords.fromAxial ⟨3, 0⟩) =
      [⟨2, 0, -2⟩] ∧
    g5.board.is_occupied ⟨2, 0⟩ = true ∧
    g5.board.contains_coords ⟨3, 0⟩ = true ∧
    ((g5.board.field ⟨3, 0⟩).map Field.is_empty).getD false = true ∧
    g5.validate_grasshopper_move ⟨1, 0⟩ ⟨3, 0⟩ = false := by
  decide

/-! ### Claim C7: a disconnecting drag move is always rejected -/

/-- Claim C7: whenever popping the top piece of the start field leaves a
board whose swarm is not connected, `validate_move` rejects the DragMove —
the connectivity guard sits before the per-piece-type dispatch, so the
geometric rules are never consulted. -/
theorem c7_disconnecting_drag_move_rejected (g : GameState) (color : PlayerColor)
    (start destination : PositionedField)
    (h : (g.board.pop_field start.coords).is_swarm_connected = false) :
    g.validate_move color (.drag_move start destination) = false := by
  show g.validate_drag_move color start.coords destination.coords = false
  unfold GameState.validate_drag_move
  cases ho : (g.board.field start.coords).bind Field.piece with
  | none => simp [ho]
  | some dragged => simp [ho, h]

/-- Witness for C7: in `g7`, dragging the Ant away from `(1,0)` would split
the swarm into `(0,0)` and `(2,0)`, and the move is rejected. -/
theorem c7_disconnecting_drag_move_witness :
    g7.validate_move .red
      (.drag_move ⟨⟨1, 0⟩, ⟨[⟨.red, .ant⟩], false⟩⟩ ⟨⟨3, 0⟩, ⟨[], false⟩⟩) = false :=
  c7_disconnecting_drag_move_rejected g7 .red ⟨⟨1, 0⟩, ⟨[⟨.red, .ant⟩], false⟩⟩
    ⟨⟨3, 0⟩, ⟨[], false⟩⟩ (by decide)

/-! ### Claim C6: move enumeration on the very first turn -/

/-- A field without pieces is owned by nobody. -/
theorem field_not_owned_of_no_pieces (f : Field) (hf : f.has_pieces = false)
    (c : PlayerColor) : f.is_owned_by c = false := by
  obtain ⟨stack, ob⟩ := f
  simp only [Field.has_pieces, Bool.not_eq_false', List.isEmpty_iff] at hf
  subst hf
  simp [Field.is_owned_by, Field.owner, Field.piece]

/-- On a board whose keys are unique, looking up the coordinate of a stored
entry returns that entry's field. -/
theorem board_field_eq_of_mem (b : Board) (hkeys : (b.fields.map Prod.fst).Nodup)
    (c : AxialCoords) (f : Field) (h : (c, f) ∈ b.fields) : b.field c = some f := by
  unfold Board.field
  obtain ⟨l⟩ := b
  simp only at h hkeys ⊢
  induction l with
  | nil => cases h
  | cons q l ih =>
    rw [List.map_cons, List.nodup_cons] at hkeys
    rcases List.mem_cons.mp h with hq | hl
    · subst hq
      simp [List.find?]
    · have hne : (q.1 == c) = false := by
        cases hb : (q.1 == c)
        · rfl
        · exfalso
          apply hkeys.1
          rw [beq_iff_eq] at hb
          rw [hb]
          exact List.mem_map_of_mem Prod.fst hl
      simp only [List.find?, hne]
      exact ih hkeys.2 hl

/-- Turning a list of stored entries into `PositionedField`s through the
board lookup is the identity on the entries (unique keys). -/
theorem filterMap_field_entries (b : Board) (hkeys : (b.fields.map Prod.fst).Nodup) :
    ∀ l : List (AxialCoords × Field), (∀ p ∈ l, p ∈ b.fields) →
      (l.map Prod.fst).filterMap
        (fun c => (b.field c).map (fun f => PositionedField.mk c f)) =
        l.map (fun p => PositionedField.mk p.1 p.2) := by
  intro l
  induction l with
  | nil => intro _; rfl
  | cons q l ih =>
    intro hmem
    have hq : b.field q.1 = some q.2 :=
      board_field_eq_of_mem b hkeys q.1 q.2 (hmem q (List.mem_cons_self q l))
    have ih' := ih (fun p hp => hmem p (List.mem_cons_of_mem q hp))
    simp [hq, ih']

/-- Claim C6 (amended): on the very first turn — turn 0, both pools full,
no pieces on the board — `possible_moves` consists of SetMoves only (the
DragMove list is empty), namely the cross-product of the empty board cells
with the undeployed pool *list*: one move per (cell × pool entry), so piece
types that the pool holds several times yield several identical moves. -/
theorem c6_first_turn_moves (g : GameState) (color : PlayerColor)
    (hkeys : (g.board.fields.map Prod.fst).Nodup)
    (hme : (g.undeployed_pieces color).length = 11)
    (hop : (g.undeployed_pieces color.opponent).length = 11)
    (hturn : g.turn = 0)
    (hnop : g.board.has_pieces = false) :
    g.possible_moves color =
      g.board.empty_fields.flatMap
        (fun p => (g.undeployed_pieces color).map
          (fun pc => Move.set_move pc ⟨p.1, p.2⟩)) ∧
    g.possible_drag_moves color = [] := by
  have hown : g.board.fields_owned_by color = [] := by
    unfold Board.fields_owned_by
    rw [List.filter_eq_nil_iff]
    intro p hp
    have hnp : p.2.has_pieces = false := by
      unfold Board.has_pieces at hnop
      rw [List.any_eq_false] at hnop
      simpa using hnop p hp
    simp [field_not_owned_of_no_pieces p.2 hnp color]
  have hdrag : g.possible_drag_moves color = [] := by
    unfold GameState.possible_drag_moves
    rw [hown]
    rfl
  refine ⟨?_, hdrag⟩
  unfold GameState.possible_moves
  rw [hdrag, List.append_nil]
  unfold GameState.possible_set_moves
  have hemptymem : ∀ p ∈ g.board.empty_fields, p ∈ g.board.fields := by
    intro p hp
    exact List.mem_of_mem_filter hp
  simp only [hme, hop, hturn,
    show ((11 : Nat) == INITIAL_PIECE_TYPES.length) = true from rfl,
    show (decide ((0 : Nat) > 5)) = false from rfl, Bool.and_false,
    Bool.false_eq_true, if_true, if_false]
  rw [filterMap_field_entries g.board hkeys g.board.empty_fields hemptymem]
  rw [List.flatMap_map]

/-- Witness for C6's amended statement: the first-turn state `g6`. -/
theorem c6_first_turn_witness :
    g6.possible_moves .red =
      g6.board.empty_fields.flatMap
        (fun p => (g6.undeployed_pieces .red).map
          (fun pc => Move.set_move pc ⟨p.1, p.2⟩)) ∧
    g6.possible_drag_moves .red = [] :=
  c6_first_turn_moves g6 .red (by decide) (by decide) (by decide) (by decide) (by decide)

/-- Counterexample for C6 as stated: in the first-turn state `g6` (both
pools full, turn 0), the move list holds *three* identical Spider SetMoves
for the one empty cell — not one per distinct undeployed piece type — and
is therefore not duplicate-free. -/
theorem c6_duplicate_set_moves :
    (g6.undeployed_pieces .red).length = 11 ∧
    (g6.undeployed_pieces .blue).length = 11 ∧
    g6.turn = 0 ∧
    g6.board.has_pieces = false ∧
    (g6.possible_moves .red).count (.set_move ⟨.red, .spider⟩ ⟨⟨0, 0⟩, ⟨[], false⟩⟩) = 3 ∧
    ¬ (g6.possible_moves .red).Nodup := by
  decide

/-! ### Claim C10: the boundary-path BFS is reflexive on existing cells -/

/-- Claim C10: for every coordinate that exists on the board,
`connected_by_boundary_path c c` returns `true` — the first BFS iteration
dequeues the start cell and tests the destination condition on it before
any accessible step is required, so occupation of `c` or the absence of
accessible neighbors is irrelevant. -/
theorem c10_boundary_path_reflexive (b : Board) (c : AxialCoords)
    (h : b.contains_coords c = true) :
    b.connected_by_boundary_path c c = true := by
  obtain ⟨f, hf⟩ : ∃ f, b.field c = some f := by
    cases hfc : b.field c with
    | none =>
      rw [Board.contains_coords, hfc] at h
      cases h
    | some f => exact ⟨f, rfl⟩
  unfold Board.connected_by_boundary_path Board.bfs_accessible
  simp [Board.bfs_accessible_aux, hf]

/-- Witness for C10: the single (empty) cell of `b10`. -/
theorem c10_boundary_path_reflexive_witness :
    b10.connected_by_boundary_path ⟨0, 0⟩ ⟨0, 0⟩ = true :=
  c10_boundary_path_reflexive b10 ⟨0, 0⟩ (by decide)

/-! ### Claim C8: swarm connectivity.  Correctness of the DFS traversal -/

/-- Unfolding of `dfs_swarm` at positive fuel. -/
theorem dfs_swarm_succ (b : Board) (fuel : Nat) (c : AxialCoords) (u : List AxialCoords) :
    b.dfs_swarm (fuel + 1) c u =
      if b.has_pieces_at c then b.dfs_fold fuel (b.neighbor_coords c) (u.erase c)
      else u := rfl

/-- Unfolding of `dfs_fold` on an empty neighbor list. -/
theorem dfs_fold_nil (b : Board) (fuel : Nat) (u : List AxialCoords) :
    b.dfs_fold fuel [] u = u := rfl

/-- Unfolding of `dfs_fold` on a neighbor list's head. -/
theorem dfs_fold_cons (b : Board) (fuel : Nat) (n : AxialCoords) (ns : List AxialCoords)
    (u : List AxialCoords) :
    b.dfs_fold fuel (n :: ns) u =
      b.dfs_fold fuel ns (if n ∈ u then b.dfs_swarm fuel n u else u) := rfl

/-- The fold only ever removes elements, given that each `dfs_swarm` call
does. -/
theorem dfs_fold_sublist_of (b : Board) (fuel : Nat)
    (H : ∀ c u, (b.dfs_swarm fuel c u).Sublist u) :
    ∀ ns u, (b.dfs_fold fuel ns u).Sublist u := by
  intro ns
  induction ns with
  | nil => intro u; exact List.Sublist.refl u
  | cons n ns ih =>
    intro u
    rw [dfs_fold_cons]
    refine (ih _).trans ?_
    by_cases hn : n ∈ u
    · rw [if_pos hn]; exact H n u
    · rw [if_neg hn]

/-- `dfs_swarm` only ever removes elements from the unvisited set. -/
theorem dfs_swarm_sublist (b : Board) : ∀ fuel c u, (b.dfs_swarm fuel c u).Sublist u := by
  intro fuel
  induction fuel with
  | zero => intro c u; exact List.Sublist.refl u
  | succ fuel ih =>
    intro c u
    rw [dfs_swarm_succ]
    by_cases hp : b.has_pieces_at c = true
    · rw [if_pos hp]
      exact (dfs_fold_sublist_of b fuel ih _ _).trans (List.erase_sublist c u)
    · rw [if_neg hp]

/-- The fold only ever removes elements. -/
theorem dfs_fold_sublist (b : Board) (fuel : Nat) (ns u : List AxialCoords) :
    (b.dfs_fold fuel ns u).Sublist u :=
  dfs_fold_sublist_of b fuel (dfs_swarm_sublist b fuel) ns u

/-- Soundness of the fold: an element removed by folding over `ns` was
removed by a recursive `dfs_swarm` call rooted at some `n ∈ ns` that was
still unvisited. -/
theorem dfs_fold_sound_of (b : Board) (fuel : Nat)
    (H : ∀ c u x, (∀ y ∈ u, b.has_pieces_at y = true) → x ∈ u →
      x ∉ b.dfs_swarm fuel c u → PieceReach b c x) :
    ∀ ns u x, (∀ y ∈ u, b.has_pieces_at y = true) → x ∈ u → x ∉ b.dfs_fold fuel ns u →
      ∃ n, n ∈ ns ∧ n ∈ u ∧ PieceReach b n x := by
  intro ns
  induction ns with
  | nil =>
    intro u x _ hx hnx
    rw [dfs_fold_nil] at hnx
    exact absurd hx hnx
  | cons n ns ih =>
    intro u x hu hx hnx
    rw [dfs_fold_cons] at hnx
    by_cases hn : n ∈ u
    · rw [if_pos hn] at hnx
      by_cases hx1 : x ∈ b.dfs_swarm fuel n u
      · obtain ⟨m, hmns, hmu, hr⟩ :=
          ih _ x (fun y hy => hu y ((dfs_swarm_sublist b fuel n u).subset hy)) hx1 hnx
        exact ⟨m, List.mem_cons_of_mem n hmns, (dfs_swarm_sublist b fuel n u).subset hmu, hr⟩
      · exact ⟨n, List.mem_cons_self n ns, hn, H n u x hu hx hx1⟩
    · rw [if_neg hn] at hnx
      obtain ⟨m, hmns, hmu, hr⟩ := ih u x hu hx hnx
      exact ⟨m, List.mem_cons_of_mem n hmns, hmu, hr⟩

/-- Soundness of `dfs_swarm`: every element it removes is piece-reachable
from the root of the traversal. -/
theorem dfs_swarm_sound (b : Board) : ∀ fuel c u x,
    (∀ y ∈ u, b.has_pieces_at y = true) → x ∈ u → x ∉ b.dfs_swarm fuel c u →
    PieceReach b c x := by
  intro fuel
  induction fuel with
  | zero => intro c u x _ hx hnx; exact absurd hx hnx
  | succ fuel ih =>
    intro c u x hu hx hnx
    rw [dfs_swarm_succ] at hnx
    by_cases hp : b.has_pieces_at c = true
    · rw [if_pos hp] at hnx
      by_cases hxc : x = c
      · subst hxc; exact Relation.ReflTransGen.refl
      · have hxe : x ∈ u.erase c := (List.mem_erase_of_ne hxc).mpr hx
        obtain ⟨n, hnns, hnu, hr⟩ := dfs_fold_sound_of b fuel ih _ _ x
          (fun y hy => hu y ((List.erase_sublist c u).subset hy)) hxe hnx
        have hpn : b.has_pieces_at n = true := hu n ((List.erase_sublist c u).subset hnu)
        exact Relation.ReflTransGen.head ⟨hnns, hpn⟩ hr
    · rw [if_neg hp] at hnx
      exact absurd hx hnx

/-- With positive fuel and a pieces-holding root, the root is removed. -/
theorem dfs_swarm_not_mem_self (b : Board) (fuel : Nat) (c : AxialCoords)
    (u : List AxialCoords) (hp : b.has_pieces_at c = true) (hnd : u.Nodup) :
    c ∉ b.dfs_swarm (fuel + 1) c u := by
  rw [dfs_swarm_succ, if_pos hp]
  intro hc
  obtain ⟨hne, _⟩ := hnd.mem_erase_iff.mp ((dfs_fold_sublist b fuel _ _).subset hc)
  exact hne rfl

/-- The fold removes every pieces-holding member of the list it processes. -/
theorem dfs_fold_covers (b : Board) (fuel : Nat) :
    ∀ ns u, u.length ≤ fuel → u.Nodup → (∀ y ∈ u, b.has_pieces_at y = true) →
      ∀ n, n ∈ ns → b.has_pieces_at n = true → n ∉ b.dfs_fold fuel ns u := by
  intro ns
  induction ns with
  | nil => intro u _ _ _ n hn; cases hn
  | cons n0 ns ih =>
    intro u hlen hnd hu n hn hpn
    rw [dfs_fold_cons]
    rcases List.mem_cons.mp hn with rfl | hn'
    · by_cases h0 : n ∈ u
      · rw [if_pos h0]
        intro hmem
        obtain ⟨fuel', rfl⟩ : ∃ f', fuel = f' + 1 := by
          cases fuel with
          | zero =>
            exfalso
            have := List.length_pos_of_mem h0
            omega
          | succ f' => exact ⟨f', rfl⟩
        exact dfs_swarm_not_mem_self b fuel' n u hpn hnd
          ((dfs_fold_sublist b _ ns _).subset hmem)
      · rw [if_neg h0]
        intro hmem
        exact h0 ((dfs_fold_sublist b fuel ns u).subset hmem)
    · have hsub : (if n0 ∈ u then b.dfs_swarm fuel n0 u else u).Sublist u := by
        by_cases h0 : n0 ∈ u
        · rw [if_pos h0]; exact dfs_swarm_sublist b fuel n0 u
        · rw [if_neg h0]
      exact ih _ (le_trans hsub.length_le hlen) (List.Nodup.sublist hsub hnd)
        (fun y hy => hu y (hsub.subset hy)) n hn' hpn

/-- Closure of the fold: once an element of `u` has been removed, none of
its pieces-holding neighbors survives the fold either (given the same
property for single `dfs_swarm` calls at this fuel). -/
theorem dfs_fold_closed (b : Board) (fuel : Nat)
    (IH : ∀ c u, u.length ≤ fuel → u.Nodup → (∀ y ∈ u, b.has_pieces_at y = true) →
      b.has_pieces_at c = true → c ∈ u →
      ∀ a, a ∈ u → a ∉ b.dfs_swarm fuel c u →
      ∀ n, n ∈ b.neighbor_coords a → b.has_pieces_at n = true →
        n ∉ b.dfs_swarm fuel c u) :
    ∀ ns u, u.length ≤ fuel → u.Nodup → (∀ y ∈ u, b.has_pieces_at y = true) →
      ∀ a, a ∈ u → a ∉ b.dfs_fold fuel ns u →
      ∀ n, n ∈ b.neighbor_coords a → b.has_pieces_at n = true →
        n ∉ b.dfs_fold fuel ns u := by
  intro ns
  induction ns with
  | nil =>
    intro u _ _ _ a ha hna
    rw [dfs_fold_nil] at hna
    exact absurd ha hna
  | cons n0 ns ih =>
    intro u hlen hnd hu a ha hna n hnn hpn
    rw [dfs_fold_cons] at hna ⊢
    by_cases h0 : n0 ∈ u
    · rw [if_pos h0] at hna ⊢
      have hsub : (b.dfs_swarm fuel n0 u).Sublist u := dfs_swarm_sublist b fuel n0 u
      by_cases ha1 : a ∈ b.dfs_swarm fuel n0 u
      · exact ih _ (le_trans hsub.length_le hlen) (List.Nodup.sublist hsub hnd)
          (fun y hy => hu y (hsub.subset hy)) a ha1 hna n hnn hpn
      · have hnu1 : n ∉ b.dfs_swarm fuel n0 u :=
          IH n0 u hlen hnd hu (hu n0 h0) h0 a ha ha1 n hnn hpn
        intro hmem
        exact hnu1 ((dfs_fold_sublist b fuel ns _).subset hmem)
    · rw [if_neg h0] at hna ⊢
      exact ih u hlen hnd hu a ha hna n hnn hpn

/-- Closure of `dfs_swarm`: at sufficient fuel, once the traversal has
removed a cell, it has also removed every pieces-holding neighbor of it. -/
theorem dfs_swarm_closed (b : Board) : ∀ fuel c u,
    u.length ≤ fuel → u.Nodup → (∀ y ∈ u, b.has_pieces_at y = true) →
    b.has_pieces_at c = true → c ∈ u →
    ∀ a, a ∈ u → a ∉ b.dfs_swarm fuel c u →
    ∀ n, n ∈ b.neighbor_coords a → b.has_pieces_at n = true →
      n ∉ b.dfs_swarm fuel c u := by
  intro fuel
  induction fuel with
  | zero =>
    intro c u hlen _ _ _ hc a ha _ n _ _
    exfalso
    have := List.length_pos_of_mem ha
    omega
  | succ fuel ih =>
    intro c u hlen hnd hu hp hc a ha hna n hnn hpn
    rw [dfs_swarm_succ, if_pos hp] at hna ⊢
    have hsub0 : (u.erase c).Sublist u := List.erase_sublist c u
    have hlen0 : (u.erase c).length ≤ fuel := by
      rw [List.length_erase_of_mem hc]
      have := List.length_pos_of_mem hc
      omega
    have hnd0 := List.Nodup.sublist hsub0 hnd
    have hu0p : ∀ y ∈ u.erase c, b.has_pieces_at y = true :=
      fun y hy => hu y (hsub0.subset hy)
    by_cases hac : a = c
    · subst hac
      exact dfs_fold_covers b fuel _ _ hlen0 hnd0 hu0p n hnn hpn
    · exact dfs_fold_closed b fuel ih _ _ hlen0 hnd0 hu0p a
        ((List.mem_erase_of_ne hac).mpr ha) hna n hnn hpn

/-- Neighborhood on the raw hex grid is symmetric: the six offsets come in
opposite pairs. -/
theorem coord_neighbors_symm (u v : AxialCoords) :
    u ∈ coord_neighbors v ↔ v ∈ coord_neighbors u := by
  obtain ⟨ux, uy⟩ := u
  obtain ⟨vx, vy⟩ := v
  simp only [coord_neighbors, AxialCoords.add, List.mem_cons, List.not_mem_nil,
    or_false, AxialCoords.mk.injEq]
  omega

/-- Membership in the existing-neighbor coordinates, unfolded. -/
theorem mem_neighbor_coords (b : Board) (u v : AxialCoords) :
    v ∈ b.neighbor_coords u ↔ v ∈ coord_neighbors u ∧ (b.field v).isSome := by
  unfold Board.neighbor_coords Board.neighbors
  constructor
  · intro h
    obtain ⟨p, hp, hpv⟩ := List.mem_map.mp h
    obtain ⟨a, ha, hfa⟩ := List.mem_filterMap.mp hp
    obtain ⟨f, hf, hpf⟩ := Option.map_eq_some'.mp hfa
    subst hpf
    subst hpv
    exact ⟨ha, by rw [hf]; rfl⟩
  · intro ⟨hv, hsome⟩
    obtain ⟨f, hf⟩ := Option.isSome_iff_exists.mp hsome
    exact List.mem_map.mpr ⟨(v, f), List.mem_filterMap.mpr ⟨v, hv, by rw [hf]; rfl⟩, rfl⟩

/-- A `PieceAdj` edge reverses as soon as its source holds pieces. -/
theorem pieceAdj_symm (b : Board) (u v : AxialCoords) (h : PieceAdj b u v)
    (hu : b.has_pieces_at u = true) : PieceAdj b v u := by
  obtain ⟨hn, _⟩ := h
  refine ⟨?_, hu⟩
  rw [mem_neighbor_coords] at hn ⊢
  refine ⟨(coord_neighbors_symm u v).mpr hn.1, ?_⟩
  unfold Board.has_pieces_at at hu
  cases hf : b.field u with
  | none => rw [hf] at hu; cases hu
  | some f => rfl

/-- Every cell piece-reachable from a pieces-holding cell holds pieces. -/
theorem pieceReach_has_pieces (b : Board) (s x : AxialCoords) (h : PieceReach b s x)
    (hs : b.has_pieces_at s = true) : b.has_pieces_at x = true := by
  induction h with
  | refl => exact hs
  | tail _ e _ => exact e.2

/-- Piece-reachability from a pieces-holding cell is symmetric. -/
theorem pieceReach_symm (b : Board) (s t : AxialCoords) (hs : b.has_pieces_at s = true)
    (h : PieceReach b s t) : PieceReach b t s := by
  induction h with
  | refl => exact Relation.ReflTransGen.refl
  | tail hst e ih =>
    exact Relation.ReflTransGen.head
      (pieceAdj_symm b _ _ e (pieceReach_has_pieces b s _ hst hs)) ih

/-- A pieces-holding coordinate appears among the piece cells. -/
theorem mem_piece_cells_of_has_pieces (b : Board) (x : AxialCoords)
    (hx : b.has_pieces_at x = true) : x ∈ b.piece_cells := by
  unfold Board.has_pieces_at at hx
  cases hf : b.field x with
  | none => rw [hf] at hx; cases hx
  | some f =>
    rw [hf] at hx
    unfold Board.field at hf
    cases hfind : b.fields.find? (fun p => p.1 == x) with
    | none => rw [hfind] at hf; cases hf
    | some p =>
      rw [hfind] at hf
      have hf2 : p.2 = f := by
        simpa using hf
      have hbeq : (p.1 == x) = true :=
        @List.find?_some _ (fun q => q.1 == x) p b.fields hfind
      have hpx : p.1 = x := beq_iff_eq.mp hbeq
      unfold Board.piece_cells
      refine List.mem_map.mpr ⟨p, List.mem_filter.mpr ⟨List.mem_of_find?_eq_some hfind, ?_⟩, hpx⟩
      rw [hf2]
      simpa using hx

/-- On a board with unique keys, every piece cell holds pieces. -/
theorem has_pieces_of_mem_piece_cells (b : Board)
    (hkeys : (b.fields.map Prod.fst).Nodup) (x : AxialCoords)
    (hx : x ∈ b.piece_cells) : b.has_pieces_at x = true := by
  unfold Board.piece_cells at hx
  obtain ⟨p, hpmem, hpx⟩ := List.mem_map.mp hx
  obtain ⟨hpf, hph⟩ := List.mem_filter.mp hpmem
  have hfield : b.field x = some p.2 := by
    subst hpx
    exact board_field_eq_of_mem b hkeys p.1 p.2 hpf
  unfold Board.has_pieces_at
  rw [hfield]
  simpa using hph

/-- Unique keys make the piece-cell list duplicate-free. -/
theorem piece_cells_nodup (b : Board) (hkeys : (b.fields.map Prod.fst).Nodup) :
    b.piece_cells.Nodup :=
  List.Nodup.sublist (List.Sublist.map Prod.fst (List.filter_sublist b.fields)) hkeys

/-- There are no more piece cells than fields. -/
theorem piece_cells_length_le (b : Board) : b.piece_cells.length ≤ b.fields.length := by
  unfold Board.piece_cells
  rw [List.length_map]
  exact List.length_filter_le _ b.fields

/-- The swarm-connectivity check succeeds exactly when every pieces-holding
cell is piece-reachable from the traversal's start cell (the first piece
cell), on a board with unique keys. -/
theorem swarm_connected_iff_reach (b : Board)
    (hkeys : (b.fields.map Prod.fst).Nodup) :
    b.is_swarm_connected = true ↔
      ∀ s ∈ b.piece_cells.head?, ∀ x, b.has_pieces_at x = true → PieceReach b s x := by
  cases hpc : b.piece_cells with
  | nil =>
    constructor
    · intro _ s hs
      rw [List.head?_nil] at hs
      cases hs
    · intro _
      unfold Board.is_swarm_connected
      rw [hpc]
  | cons s rest =>
    have hs_mem : s ∈ b.piece_cells := by rw [hpc]; exact List.mem_cons_self s rest
    have hps : b.has_pieces_at s = true := has_pieces_of_mem_piece_cells b hkeys s hs_mem
    have hpcnd : b.piece_cells.Nodup := piece_cells_nodup b hkeys
    have hpcp : ∀ y ∈ b.piece_cells, b.has_pieces_at y = true :=
      fun y hy => has_pieces_of_mem_piece_cells b hkeys y hy
    have hlen : b.piece_cells.length ≤ b.fields.length + 1 :=
      le_trans (piece_cells_length_le b) (Nat.le_succ _)
    have hconn : b.is_swarm_connected =
        (b.dfs_swarm (b.fields.length + 1) s b.piece_cells).isEmpty := by
      unfold Board.is_swarm_connected
      rw [hpc]
    constructor
    · intro htrue s' hs' x hx
      rw [List.head?_cons, Option.mem_some_iff] at hs'
      subst hs'
      have hres : b.dfs_swarm (b.fields.length + 1) s b.piece_cells = [] := by
        rw [hconn] at htrue
        exact List.isEmpty_iff.mp htrue
      refine dfs_swarm_sound b (b.fields.length + 1) s b.piece_cells x hpcp
        (mem_piece_cells_of_has_pieces b x hx) ?_
      rw [hres]
      exact List.not_mem_nil x
    · intro hall
      have hreach : ∀ x ∈ b.piece_cells, PieceReach b s x := by
        intro x hx
        refine hall s ?_ x (hpcp x hx)
        simp
      have hnone : ∀ t, PieceReach b s t →
          t ∉ b.dfs_swarm (b.fields.length + 1) s b.piece_cells := by
        intro t ht
        induction ht with
        | refl => exact dfs_swarm_not_mem_self b b.fields.length s b.piece_cells hps hpcnd
        | tail hst e ih =>
          have hpt : b.has_pieces_at _ = true := pieceReach_has_pieces b s _ hst hps
          exact dfs_swarm_closed b (b.fields.length + 1) s b.piece_cells hlen hpcnd
            hpcp hps hs_mem _ (mem_piece_cells_of_has_pieces b _ hpt) ih _ e.1 e.2
      rw [hconn, List.isEmpty_iff, List.eq_nil_iff_forall_not_mem]
      intro y hy
      exact hnone y
        (hreach y ((dfs_swarm_sublist b _ s b.piece_cells).subset hy)) hy

/-- Claim C8 (amended: "occupied" read as "holding pieces", which is what
the traversal actually follows): on a board with unique keys,
`is_swarm_connected` returns `true` on a board with no piece-holding cells;
it returns `false` whenever two piece-holding cells are not piece-reachable
from one another; and in general it returns `true` iff the depth-first
traversal's start cell (the first piece cell) piece-reaches every
piece-holding cell.  Obstructed piece-less fields are "occupied" but play
no part in the traversal — see the counterexample. -/
theorem c8_swarm_connectivity_iff_dfs_reachability (b : Board)
    (hkeys : (b.fields.map Prod.fst).Nodup) :
    (b.has_pieces = false → b.is_swarm_connected = true) ∧
    (∀ x y, b.has_pieces_at x = true → b.has_pieces_at y = true →
      ¬ PieceReach b x y → b.is_swarm_connected = false) ∧
    (b.is_swarm_connected = true ↔
      ∀ s ∈ b.piece_cells.head?, ∀ x, b.has_pieces_at x = true → PieceReach b s x) := by
  refine ⟨?_, ?_, swarm_connected_iff_reach b hkeys⟩
  · intro hnop
    have hpc : b.piece_cells = [] := by
      unfold Board.piece_cells
      unfold Board.has_pieces at hnop
      rw [List.any_eq_false] at hnop
      rw [List.filter_eq_nil_iff.mpr (fun p hp => hnop p hp)]
      rfl
    unfold Board.is_swarm_connected
    rw [hpc]
  · intro x y hx hy hnr
    cases hcon : b.is_swarm_connected with
    | false => rfl
    | true =>
      exfalso
      have hiff := (swarm_connected_iff_reach b hkeys).mp hcon
      have hxm := mem_piece_cells_of_has_pieces b x hx
      cases hpc : b.piece_cells with
      | nil => rw [hpc] at hxm; cases hxm
      | cons s rest =>
        have hshead : s ∈ b.piece_cells.head? := by rw [hpc]; simp
        have hps : b.has_pieces_at s = true :=
          has_pieces_of_mem_piece_cells b hkeys s (by rw [hpc]; exact List.mem_cons_self s rest)
        exact hnr (Relation.ReflTransGen.trans
          (pieceReach_symm b s x hps (hiff s hshead x hx)) (hiff s hshead y hy))

/-- Witness for C8's amended statement: the piece-less board `b10` is
reported swarm-connected. -/
theorem c8_swarm_connectivity_witness : b10.is_swarm_connected = true :=
  (c8_swarm_connectivity_iff_dfs_reachability b10 (by decide)).1 (by decide)

/-- Counterexample for C8 as stated: `b8` holds two *occupied* cells,
`(0,0)` (a piece) and `(2,0)` (obstructed, no pieces), with no path of
occupied cells between them — `(0,0)` has no existing occupied neighbor at
all — yet `is_swarm_connected` returns `true`, because the traversal only
considers cells that hold pieces. -/
theorem c8_obstructed_cell_not_traversed :
    b8.is_swarm_connected = true ∧
    b8.contains_coords ⟨0, 0⟩ = true ∧
    b8.contains_coords ⟨2, 0⟩ = true ∧
    b8.is_occupied ⟨0, 0⟩ = true ∧
    b8.is_occupied ⟨2, 0⟩ = true ∧
    ¬ OccReach b8 ⟨0, 0⟩ ⟨2, 0⟩ := by
  refine ⟨by decide, by decide, by decide, by decide, by decide, ?_⟩
  intro h
  rcases Relation.ReflTransGen.cases_head h with heq | ⟨m, hadj, _⟩
  · exact absurd heq (by decide)
  · have hm : m ∈ b8.neighbor_coords ⟨0, 0⟩ := hadj.1
    rw [show b8.neighbor_coords ⟨0, 0⟩ = [] from by decide] at hm
    exact absurd hm (List.not_mem_nil m)

end Socha
